import Mathlib

/-!
Verification of the sysapi stats server (src/main.rs).

The program samples CPU, memory and disk usage, formats the numbers, and
serves them as JSON on GET /stats.  We embed its pure computations over
exact rationals:

* 32-bit and 64-bit IEEE floating point values are modelled by their exact
  rational values; every arithmetic operation applies round-to-nearest,
  ties-to-even, at the appropriate significand width (24 bits for f32,
  53 bits for f64).  The model is exact for all values of magnitude at
  least 2 ^ (-80); every float arising in this program is either 0 or of
  magnitude at least 2 ^ (-66), far above the subnormal thresholds, so
  overflow and subnormal rounding never occur and are not modelled.
* The special values NaN and the two infinities of f32 are modelled by an
  explicit sum type, since the percentage computations can divide by zero.
* u64 arithmetic is modelled on Nat with explicit wrapping modulo 2 ^ 64 as
  in release-profile Rust; the condition under which the checked (debug)
  profile would panic is tracked separately.
* The handler is a function from the sampled environment and the state of
  the two locks to a result; calling unwrap on a poisoned lock is modelled
  as an error outcome.
* Lock usage and startup behaviour are modelled as the event traces that
  the straight-line source code performs, with guard drops at the end of
  the function in reverse declaration order, as in Rust.
-/

/-- Round a rational to an integer, round-to-nearest with ties to even
(the IEEE 754 default rounding, and the rounding used by Rust float
formatting).  The fractional part is compared with one half by comparing
its double with one, keeping the definition free of rational division so
that it evaluates by kernel reduction. -/
def rnearest (q : ℚ) : ℤ :=
  if 2 * (q - (⌊q⌋ : ℚ)) < 1 then ⌊q⌋
  else if 1 < 2 * (q - (⌊q⌋ : ℚ)) then ⌊q⌋ + 1
  else if ⌊q⌋ % 2 = 0 then ⌊q⌋ else ⌊q⌋ + 1

/-- Exact rational division, written via Rat.divInt on numerators and
denominators because the library inverse on Rat is irreducible and would
block kernel evaluation.  Agrees with division on all inputs (both send a
zero divisor to zero); see qdiv_eq. -/
def qdiv (a b : ℚ) : ℚ := Rat.divInt (a.num * b.den) (a.den * b.num)

/-- Multiply a rational by an integer power of two, again phrased to stay
kernel-computable for negative exponents.  Agrees with multiplication by
the corresponding zpow; see mulPow2_eq. -/
def mulPow2 (q : ℚ) (e : ℤ) : ℚ :=
  if 0 ≤ e then q * (2 : ℚ) ^ e.toNat
  else Rat.divInt q.num (q.den * 2 ^ (-e).toNat)

/-- Fuel-driven binary logarithm on Nat: for 1 <= n <= fuel this computes
the largest i with 2 ^ i <= n.  Written with explicit fuel so that it is
structurally recursive and kernel-computable. -/
def ilog2F : ℕ → ℕ → ℕ
  | 0, _ => 0
  | fuel+1, n => if 2 ≤ n then ilog2F fuel (n / 2) + 1 else 0

/-- The binary exponent of a positive rational: the unique e with
2 ^ e <= q < 2 ^ (e+1), computed by scaling q up by 2 ^ 80 and taking the
integer binary logarithm.  Correct for q >= 2 ^ (-80), which covers every
nonzero float value occurring in this program. -/
def ratExp2 (q : ℚ) : ℤ :=
  ((ilog2F (⌊q * 2 ^ 80⌋).toNat (⌊q * 2 ^ 80⌋).toNat : ℕ) : ℤ) - 80

/-- Round a rational to a binary floating point value with p fractional
significand bits (p = 23 for f32, p = 52 for f64), round-to-nearest with
ties to even.  Models the IEEE operation for magnitudes in the normal
range covered by the 2 ^ (-80) scaling of ratExp2. -/
def roundFP (p : ℕ) (q : ℚ) : ℚ :=
  if q = 0 then 0
  else if 0 < q then
    mulPow2 ((rnearest (mulPow2 q ((p : ℤ) - ratExp2 q)) : ℤ) : ℚ) (ratExp2 q - (p : ℤ))
  else
    -(mulPow2 ((rnearest (mulPow2 (-q) ((p : ℤ) - ratExp2 (-q))) : ℤ) : ℚ) (ratExp2 (-q) - (p : ℤ)))

/-- Rounding to f32 precision (24-bit significand). -/
abbrev roundF32 (q : ℚ) : ℚ := roundFP 23 q

/-- Rounding to f64 precision (53-bit significand). -/
abbrev roundF64 (q : ℚ) : ℚ := roundFP 52 q

/-- An f32 value: a finite value (carried as its exact rational value), a
NaN, or one of the two infinities. -/
inductive F32 where
  | num (q : ℚ)
  | nan
  | inf
  | ninf
deriving DecidableEq

/-- f32 division.  0/0 is NaN, x/0 for x nonzero is a signed infinity;
finite results are correctly rounded.  (Signed zeros are not modelled:
every zero in this program is +0.) -/
def F32.div : F32 → F32 → F32
  | .nan, _ => .nan
  | _, .nan => .nan
  | .inf, .inf => .nan
  | .inf, .ninf => .nan
  | .ninf, .inf => .nan
  | .ninf, .ninf => .nan
  | .inf, .num b => if b < 0 then .ninf else .inf
  | .ninf, .num b => if b < 0 then .inf else .ninf
  | .num _, .inf => .num 0
  | .num _, .ninf => .num 0
  | .num a, .num b =>
    if b = 0 then (if a = 0 then .nan else if 0 < a then .inf else .ninf)
    else .num (roundF32 (qdiv a b))

/-- f32 multiplication with NaN and infinity propagation; finite results
are correctly rounded. -/
def F32.mul : F32 → F32 → F32
  | .nan, _ => .nan
  | _, .nan => .nan
  | .inf, .inf => .inf
  | .inf, .ninf => .ninf
  | .ninf, .inf => .ninf
  | .ninf, .ninf => .inf
  | .inf, .num b => if b = 0 then .nan else if 0 < b then .inf else .ninf
  | .num a, .inf => if a = 0 then .nan else if 0 < a then .inf else .ninf
  | .ninf, .num b => if b = 0 then .nan else if 0 < b then .ninf else .inf
  | .num a, .ninf => if a = 0 then .nan else if 0 < a then .ninf else .inf
  | .num a, .num b => .num (roundF32 (a * b))

/-- f32 subtraction with NaN and infinity propagation; finite results are
correctly rounded. -/
def F32.sub : F32 → F32 → F32
  | .nan, _ => .nan
  | _, .nan => .nan
  | .inf, .inf => .nan
  | .ninf, .ninf => .nan
  | .inf, _ => .inf
  | .ninf, _ => .ninf
  | .num _, .inf => .ninf
  | .num _, .ninf => .inf
  | .num a, .num b => .num (roundF32 (a - b))

/-- The Rust cast u64 -> f32 (round to nearest, ties to even). -/
def u64ToF32 (n : ℕ) : F32 := .num (roundF32 (n : ℚ))

/-- The Rust cast u64 -> f64 (round to nearest, ties to even; exact for
n < 2 ^ 53). -/
def u64ToF64 (n : ℕ) : ℚ := roundF64 (n : ℚ)

/-- f64 division (both operands finite, divisor nonzero at every call
site in this program), correctly rounded. -/
def f64div (a b : ℚ) : ℚ := roundF64 (qdiv a b)

/-- Left-pad the canonical decimal numeral of k < 100 to two digits. -/
def pad2 (k : ℕ) : String := (if k < 10 then "0" else "") ++ toString k

/-- Rust fixed-point formatting with two decimal digits of a finite float
whose exact value is q: the exact value is rounded to a multiple of 1/100,
round-to-nearest ties-to-even, and printed with exactly two digits after
the decimal point. -/
def fix2 (q : ℚ) : String :=
  (if q < 0 then "-" else "") ++
    (toString ((rnearest (|q| * 100)).toNat / 100) ++ "." ++
      pad2 ((rnearest (|q| * 100)).toNat % 100))

/-- Embeds format_percentage from src/main.rs: two-decimal fixed
formatting of the f32 argument, followed directly by a percent sign.
Rust formats the f32 NaN as "NaN" and the infinities as "inf"/"-inf". -/
def format_percentage : F32 → String
  | .num q => fix2 q ++ "%"
  | .nan => "NaN%"
  | .inf => "inf%"
  | .ninf => "-inf%"

/-- The constant KB from format_bytes in src/main.rs. -/
def KB : ℕ := 1024

/-- The constant MB from format_bytes in src/main.rs. -/
def MB : ℕ := KB * 1024

/-- The constant GB from format_bytes in src/main.rs. -/
def GB : ℕ := MB * 1024

/-- The constant TB from format_bytes in src/main.rs. -/
def TB : ℕ := GB * 1024

/-- Embeds format_bytes from src/main.rs: the match cascade testing
b >= TB, b >= GB, b >= MB, b >= KB in that order, formatting the f64
quotient with two decimals and the unit suffix, with a plain integer byte
count as the fallback arm. -/
def format_bytes (bytes : ℕ) : String :=
  if TB ≤ bytes then fix2 (f64div (u64ToF64 bytes) (u64ToF64 TB)) ++ " TB"
  else if GB ≤ bytes then fix2 (f64div (u64ToF64 bytes) (u64ToF64 GB)) ++ " GB"
  else if MB ≤ bytes then fix2 (f64div (u64ToF64 bytes) (u64ToF64 MB)) ++ " MB"
  else if KB ≤ bytes then fix2 (f64div (u64ToF64 bytes) (u64ToF64 KB)) ++ " KB"
  else toString bytes ++ " B"

/-- The spec's description of the unit table: the units in decreasing
order of threshold, so that the first threshold met is the largest one. -/
def specUnits : List (ℕ × String) := [(TB, "TB"), (GB, "GB"), (MB, "MB"), (KB, "KB")]

/-- The spec's formulation of byte formatting: choose the largest unit
whose 1024-based threshold the input meets; below every threshold render
an integer byte count, otherwise the scaled value with two decimals, a
space, and the unit code. -/
def specFormatBytes (b : ℕ) : String :=
  match specUnits.find? (fun u => decide (u.1 ≤ b)) with
  | some u => fix2 (f64div (u64ToF64 b) (u64ToF64 u.1)) ++ " " ++ u.2
  | none => toString b ++ " B"

/-- One mounted disk as reported by the disk sampler: its total_space and
available_space counters, in bytes (u64). -/
structure Disk where
  total_space : ℕ
  available_space : ℕ
deriving DecidableEq

/-- The values the OS samplers deliver on one request: the global CPU
usage as reported by the f32 of the CPU sampler, used and total physical
memory in bytes (u64), and the refreshed list of mounted disks. -/
structure SysEnv where
  cpu_usage : F32
  total_memory : ℕ
  used_memory : ℕ
  disks : List Disk

/-- Whether each of the two global mutexes (SYSTEM and DISKS) is
poisoned by a prior panic when the handler runs. -/
structure LockEnv where
  sysPoisoned : Bool
  disksPoisoned : Bool

/-- Embeds struct UsageInfo from src/main.rs (all fields already
formatted as strings). -/
structure UsageInfo where
  used : String
  total : String
  percentage : String
deriving DecidableEq

/-- Embeds struct ServerStats from src/main.rs. -/
structure ServerStats where
  cpu_usage : String
  ram : UsageInfo
  storage : UsageInfo
deriving DecidableEq

/-- A handler panic: unwrap on a poisoned lock result. -/
inductive Panic where
  | lockPoisoned
deriving DecidableEq

/-- u64 iterator sum as in disks.iter().map(...).sum::<u64>(), with
release-profile wrapping on overflow. -/
def u64sum (xs : List ℕ) : ℕ := xs.foldl (fun a x => (a + x) % 2 ^ 64) 0

/-- u64 subtraction with release-profile wrapping, for a, b < 2 ^ 64. -/
def wrapSub (a b : ℕ) : ℕ := (a + 2 ^ 64 - b) % 2 ^ 64

/-- The condition under which the checked (debug-profile) u64 subtraction
a - b would panic. -/
def subUnderflows (a b : ℕ) : Bool := decide (a < b)

/-- The memory percentage computed at line 55 of src/main.rs:
(used_memory as f32 / total_memory as f32) * 100.0. -/
def ram_percentage (used_memory total_memory : ℕ) : F32 :=
  F32.mul (F32.div (u64ToF32 used_memory) (u64ToF32 total_memory)) (F32.num 100)

/-- The disk percentage computed at line 67 of src/main.rs:
100.0 - (available_disk_space as f32 / total_disk_space as f32) * 100.0. -/
def disk_used_percentage (available_disk_space total_disk_space : ℕ) : F32 :=
  F32.sub (F32.num 100)
    (F32.mul (F32.div (u64ToF32 available_disk_space) (u64ToF32 total_disk_space)) (F32.num 100))

/-- Embeds async fn get_server_stats from src/main.rs as a function of
the sampled values and the lock states.  Taking a poisoned lock makes the
unwrap panic, modelled as an error outcome; otherwise the handler is a
pure computation of the formatted ServerStats. -/
def get_server_stats (locks : LockEnv) (env : SysEnv) : Except Panic ServerStats :=
  if locks.sysPoisoned then Except.error Panic.lockPoisoned
  else
    let cpu_usage := format_percentage env.cpu_usage
    let total_memory := env.total_memory
    let used_memory := env.used_memory
    let ram : UsageInfo :=
      { used := format_bytes used_memory
        total := format_bytes total_memory
        percentage := format_percentage (ram_percentage used_memory total_memory) }
    if locks.disksPoisoned then Except.error Panic.lockPoisoned
    else
      let total_disk_space := u64sum (env.disks.map Disk.total_space)
      let available_disk_space := u64sum (env.disks.map Disk.available_space)
      let storage : UsageInfo :=
        { used := format_bytes (wrapSub total_disk_space available_disk_space)
          total := format_bytes total_disk_space
          percentage := format_percentage (disk_used_percentage available_disk_space total_disk_space) }
      Except.ok { cpu_usage := cpu_usage, ram := ram, storage := storage }

/-- A JSON value, as far as this program's responses need: strings and
objects with ordered fields. -/
inductive Json where
  | str (s : String)
  | obj (fields : List (String × Json))

/-- serde serialization of UsageInfo: fields in declaration order, all
strings. -/
def UsageInfo.toJson (u : UsageInfo) : Json :=
  .obj [("used", .str u.used), ("total", .str u.total), ("percentage", .str u.percentage)]

/-- serde serialization of ServerStats: fields in declaration order. -/
def ServerStats.toJson (s : ServerStats) : Json :=
  .obj [("cpu_usage", .str s.cpu_usage), ("ram", UsageInfo.toJson s.ram),
    ("storage", UsageInfo.toJson s.storage)]

/-- Modelled from the spec: the HTTP layer (the axum router and server,
an external collaborator not re-specified) turns the handler's Json
return value into a 200 response carrying the serialized body, and
produces no response for that request when the handler panics. -/
def route_stats (locks : LockEnv) (env : SysEnv) : Option (ℕ × Json) :=
  match get_server_stats locks env with
  | .ok s => some (200, ServerStats.toJson s)
  | .error _ => none

/-- The two process-wide locks of src/main.rs. -/
inductive LockId where
  | system
  | disks
deriving DecidableEq, Fintype

/-- A lock acquisition or release event. -/
inductive LockEvent where
  | acquire (l : LockId)
  | release (l : LockId)
deriving DecidableEq, Fintype

/-- The sequence of lock events one execution of get_server_stats
performs: SYSTEM is locked at line 48 and its guard lives to the end of
the function; DISKS is locked at line 63 while the SYSTEM guard is still
held; at the end of the function the guards drop in reverse declaration
order (disks, then system). -/
def handlerLockTrace : List LockEvent :=
  [.acquire .system, .acquire .disks, .release .disks, .release .system]

/-- Whether lock l is held after the events of tr (more acquires than
releases). -/
def heldAfter (tr : List LockEvent) (l : LockId) : Bool :=
  decide (tr.count (.release l) < tr.count (.acquire l))

/-- The no-nesting property: at no point does the trace acquire one lock
while a different lock is already held. -/
def noLockHeldWhileAcquiring (tr : List LockEvent) : Prop :=
  ∀ i, i < tr.length → ∀ l l', tr[i]? = some (.acquire l) → l' ≠ l →
    heldAfter (tr.take i) l' = false

/-- An IPv4 socket address as constructed in main. -/
structure SockAddr where
  ip : List ℕ
  port : ℕ
deriving DecidableEq

/-- The address bound in main: SocketAddr::from(([127, 0, 0, 1], 2989)). -/
def main_addr : SockAddr := { ip := [127, 0, 0, 1], port := 2989 }

/-- Display of a SocketAddr, dotted quad and port. -/
def sockAddrStr (a : SockAddr) : String :=
  String.intercalate "." (a.ip.map toString) ++ ":" ++ toString a.port

/-- An observable effect of main. -/
inductive Effect where
  | println (s : String)
  | eprintln (s : String)
  | bindServe (a : SockAddr)
deriving DecidableEq

/-- The effect trace of main in src/main.rs, as a function of whether
binding and serving returned an error (and with which message): main
prints the listening line, then binds and serves the fixed address; on an
error it prints the error to stderr; in every case the trace then ends
and the process exits. -/
def mainEffects (serveError : Option String) : List Effect :=
  [.println ("Listening on " ++ sockAddrStr main_addr), .bindServe main_addr] ++
    match serveError with
    | some e => [.eprintln ("Server error: " ++ e)]
    | none => []

/-- A sample environment used to instantiate theorems with hypotheses. -/
def envSample : SysEnv :=
  { cpu_usage := F32.num 0, total_memory := 4096, used_memory := 1024,
    disks := [{ total_space := 1000000, available_space := 400000 }] }

/-- An environment in which every sampler reads zero. -/
def envEmpty : SysEnv :=
  { cpu_usage := F32.num 0, total_memory := 0, used_memory := 0, disks := [] }

set_option maxRecDepth 40000

/-- qdiv agrees with rational division (both send a zero divisor to 0). -/
theorem qdiv_eq (a b : ℚ) : qdiv a b = a / b := by
  rcases eq_or_ne b 0 with rfl | hb
  · rw [qdiv, Rat.divInt_eq_div]
    norm_num
  · have hbn : b.num ≠ 0 := Rat.num_ne_zero.mpr hb
    have had : ((a.den : ℚ)) ≠ 0 := Nat.cast_ne_zero.mpr a.den_nz
    have hbd : ((b.den : ℚ)) ≠ 0 := Nat.cast_ne_zero.mpr b.den_nz
    have hbnq : ((b.num : ℚ)) ≠ 0 := Int.cast_ne_zero.mpr hbn
    rw [qdiv, Rat.divInt_eq_div]
    push_cast
    conv_rhs => rw [← Rat.num_div_den a, ← Rat.num_div_den b]
    field_simp

/-- mulPow2 agrees with multiplication by the signed power of two. -/
theorem mulPow2_eq (q : ℚ) (e : ℤ) : mulPow2 q e = q * (2 : ℚ) ^ e := by
  rw [mulPow2]
  split_ifs with h
  · rw [← zpow_natCast (2:ℚ) e.toNat, Int.toNat_of_nonneg h]
  · rw [Rat.divInt_eq_div]
    push_cast
    rw [div_mul_eq_div_div, Rat.num_div_den, ← zpow_natCast (2:ℚ) (-e).toNat,
      Int.toNat_of_nonneg (by omega : (0:ℤ) ≤ -e), div_eq_mul_inv, ← zpow_neg, neg_neg]

/-- The nearest integer is at least the floor. -/
theorem floor_le_rnearest (q : ℚ) : ⌊q⌋ ≤ rnearest q := by
  rw [rnearest]; split_ifs <;> omega

/-- The nearest integer is at most the floor plus one. -/
theorem rnearest_le_floor_add_one (q : ℚ) : rnearest q ≤ ⌊q⌋ + 1 := by
  rw [rnearest]; split_ifs <;> omega

/-- Rounding a nonnegative rational to the nearest integer is nonnegative. -/
theorem rnearest_nonneg {q : ℚ} (h : 0 ≤ q) : 0 ≤ rnearest q :=
  le_trans (Int.floor_nonneg.mpr h) (floor_le_rnearest q)

/-- Rounding to nearest cannot overshoot an integer upper bound. -/
theorem rnearest_le_intCast {q : ℚ} {n : ℤ} (h : q ≤ (n : ℚ)) : rnearest q ≤ n := by
  have hf : ⌊q⌋ ≤ n := by
    have := Int.floor_le_floor h
    simpa using this
  rcases lt_or_eq_of_le hf with hlt | heq
  · exact le_trans (rnearest_le_floor_add_one q) (by omega)
  · have hq : q = (n : ℚ) := le_antisymm h (by rw [← heq]; exact Int.floor_le q)
    rw [hq, rnearest]
    simp

/-- Rounding to nearest cannot undershoot an integer lower bound. -/
theorem intCast_le_rnearest {q : ℚ} {n : ℤ} (h : (n : ℚ) ≤ q) : n ≤ rnearest q :=
  le_trans (Int.le_floor.mpr h) (floor_le_rnearest q)

/-- Round-to-nearest with ties to even is monotone. -/
theorem rnearest_mono {x y : ℚ} (h : x ≤ y) : rnearest x ≤ rnearest y := by
  have hf : ⌊x⌋ ≤ ⌊y⌋ := Int.floor_le_floor h
  rcases lt_or_eq_of_le hf with hlt | heq
  · exact le_trans (rnearest_le_floor_add_one x)
      (le_trans (by omega) (floor_le_rnearest y))
  · rw [rnearest, rnearest, heq]
    have hfx : x - ((⌊y⌋ : ℤ) : ℚ) ≤ y - ((⌊y⌋ : ℤ) : ℚ) := by linarith
    split_ifs <;> first | omega | linarith

/-- Correctness of the fuel-driven binary logarithm. -/
theorem ilog2F_spec : ∀ fuel n, 1 ≤ n → n ≤ fuel →
    2 ^ ilog2F fuel n ≤ n ∧ n < 2 ^ (ilog2F fuel n + 1) := by
  intro fuel
  induction fuel with
  | zero => intro n h1 h2; omega
  | succ fuel ih =>
    intro n h1 h2
    by_cases h : 2 ≤ n
    · obtain ⟨ha, hb⟩ := ih (n / 2) (by omega) (by omega)
      simp only [ilog2F, if_pos h]
      have hp : (2:ℕ) ^ (ilog2F fuel (n / 2) + 1) = 2 * 2 ^ ilog2F fuel (n / 2) := by
        rw [pow_succ]; ring
      have hp2 : (2:ℕ) ^ (ilog2F fuel (n / 2) + 1 + 1) = 2 * 2 ^ (ilog2F fuel (n / 2) + 1) := by
        rw [pow_succ]; ring
      omega
    · have hn1 : n = 1 := by omega
      subst hn1
      simp [ilog2F, h]

/-- Powers of two in the rationals are monotone in the exponent. -/
theorem two_zpow_le {m n : ℤ} (h : m ≤ n) : (2:ℚ) ^ m ≤ 2 ^ n :=
  zpow_le_zpow_right₀ (by norm_num) h

/-- Powers of two in the rationals are positive. -/
theorem two_zpow_pos (n : ℤ) : (0:ℚ) < 2 ^ n :=
  zpow_pos (by norm_num) n

/-- ratExp2 computes the binary exponent: for q at least 2 ^ (-80) the
value e = ratExp2 q satisfies 2 ^ e <= q < 2 ^ (e+1). -/
theorem ratExp2_spec {q : ℚ} (hq : (2:ℚ) ^ (-80 : ℤ) ≤ q) :
    (2:ℚ) ^ ratExp2 q ≤ q ∧ q < 2 ^ (ratExp2 q + 1) := by
  have hE : (0:ℚ) < 2 ^ (80:ℕ) := by positivity
  have hcancel : (2:ℚ) ^ (-80 : ℤ) * 2 ^ (80:ℕ) = 1 := by
    rw [← zpow_natCast (2:ℚ) 80, ← zpow_add₀ (by norm_num : (2:ℚ) ≠ 0)]
    norm_num
  have hq1 : (1:ℚ) ≤ q * 2 ^ (80:ℕ) := by
    calc (1:ℚ) = 2 ^ (-80 : ℤ) * 2 ^ (80:ℕ) := hcancel.symm
      _ ≤ q * 2 ^ (80:ℕ) := mul_le_mul_of_nonneg_right hq hE.le
  unfold ratExp2
  set N : ℤ := ⌊q * 2 ^ 80⌋ with hN
  have hN1 : 1 ≤ N := Int.le_floor.mpr (by exact_mod_cast hq1)
  have hNt : ((N.toNat : ℤ)) = N := Int.toNat_of_nonneg (by omega)
  obtain ⟨hlo, hhi⟩ := ilog2F_spec N.toNat N.toNat (by omega) (le_refl _)
  set i : ℕ := ilog2F N.toNat N.toNat with hi
  have hfl : ((N : ℚ)) ≤ q * 2 ^ (80:ℕ) := Int.floor_le _
  have hfl2 : q * 2 ^ (80:ℕ) < (N : ℚ) + 1 := Int.lt_floor_add_one _
  constructor
  · have h1 : ((2:ℚ)) ^ (i:ℕ) ≤ q * 2 ^ (80:ℕ) := by
      calc ((2:ℚ)) ^ (i:ℕ) = ((2 ^ i : ℕ) : ℚ) := by push_cast; ring
        _ ≤ ((N.toNat : ℕ) : ℚ) := by exact_mod_cast hlo
        _ = ((N : ℚ)) := by exact_mod_cast hNt
        _ ≤ q * 2 ^ (80:ℕ) := hfl
    have hexp : (2:ℚ) ^ ((i:ℤ) - 80) * 2 ^ (80:ℕ) = 2 ^ (i:ℕ) := by
      rw [← zpow_natCast (2:ℚ) 80, ← zpow_add₀ (by norm_num : (2:ℚ) ≠ 0),
        ← zpow_natCast (2:ℚ) i]
      congr 1
      omega
    refine le_of_mul_le_mul_right ?_ hE
    rw [hexp]
    exact h1
  · have hN2 : N + 1 ≤ ((2 ^ (i + 1) : ℕ) : ℤ) := by
      have : (N.toNat : ℤ) < ((2 ^ (i + 1) : ℕ) : ℤ) := by exact_mod_cast hhi
      omega
    have h2 : q * 2 ^ (80:ℕ) < ((2:ℚ)) ^ (i+1:ℕ) := by
      calc q * 2 ^ (80:ℕ) < (N : ℚ) + 1 := hfl2
        _ ≤ ((2 ^ (i+1) : ℕ) : ℚ) := by exact_mod_cast hN2
        _ = ((2:ℚ)) ^ (i+1:ℕ) := by push_cast; ring
    have hexp : (2:ℚ) ^ (((i:ℤ) - 80) + 1) * 2 ^ (80:ℕ) = 2 ^ (i+1:ℕ) := by
      rw [← zpow_natCast (2:ℚ) 80, ← zpow_add₀ (by norm_num : (2:ℚ) ≠ 0),
        ← zpow_natCast (2:ℚ) (i+1)]
      congr 1
      omega
    refine lt_of_mul_lt_mul_right ?_ hE.le
    rw [hexp]
    exact h2

/-- For q at least 2 ^ (-80), the binary exponent is at least -80. -/
theorem ratExp2_ge {q : ℚ} (hq : (2:ℚ) ^ (-80 : ℤ) ≤ q) : -80 ≤ ratExp2 q := by
  by_contra hc
  push_neg at hc
  have h1 := (ratExp2_spec hq).2
  have h2 : (2:ℚ) ^ (ratExp2 q + 1) ≤ 2 ^ (-80 : ℤ) := two_zpow_le (by omega)
  linarith

/-- Rounding fixes zero. -/
theorem roundFP_zero (p : ℕ) : roundFP p 0 = 0 := by
  rw [roundFP]
  simp

/-- On positive arguments, rounding is the scaled nearest-integer form. -/
theorem roundFP_pos_eq (p : ℕ) {q : ℚ} (hq : 0 < q) :
    roundFP p q =
      ((rnearest (q * 2 ^ ((p:ℤ) - ratExp2 q)) : ℤ) : ℚ) * 2 ^ (ratExp2 q - (p:ℤ)) := by
  rw [roundFP, if_neg hq.ne', if_pos hq, mulPow2_eq, mulPow2_eq]

/-- Rounding preserves nonnegativity. -/
theorem roundFP_nonneg (p : ℕ) {q : ℚ} (h : 0 ≤ q) : 0 ≤ roundFP p q := by
  rcases eq_or_lt_of_le h with heq | hq
  · rw [← heq, roundFP_zero]
  · rw [roundFP_pos_eq p hq]
    have h1 : (0:ℚ) ≤ q * 2 ^ ((p:ℤ) - ratExp2 q) := by
      have := two_zpow_pos ((p:ℤ) - ratExp2 q)
      nlinarith
    have h2 : (0:ℤ) ≤ rnearest (q * 2 ^ ((p:ℤ) - ratExp2 q)) := rnearest_nonneg h1
    have h3 : (0:ℚ) < 2 ^ (ratExp2 q - (p:ℤ)) := two_zpow_pos _
    have h4 : (0:ℚ) ≤ ((rnearest (q * 2 ^ ((p:ℤ) - ratExp2 q)) : ℤ) : ℚ) := by
      exact_mod_cast h2
    nlinarith

/-- Rounding does not go below the power of two at the binary exponent. -/
theorem zpow_le_roundFP (p : ℕ) {q : ℚ} (hq : (2:ℚ) ^ (-80 : ℤ) ≤ q) :
    (2:ℚ) ^ ratExp2 q ≤ roundFP p q := by
  have hq0 : 0 < q := lt_of_lt_of_le (two_zpow_pos _) hq
  obtain ⟨hlo, _⟩ := ratExp2_spec hq
  rw [roundFP_pos_eq p hq0]
  have hz : ((2:ℚ)) ^ (p:ℤ) ≤ q * 2 ^ ((p:ℤ) - ratExp2 q) := by
    calc ((2:ℚ)) ^ (p:ℤ) = 2 ^ ratExp2 q * 2 ^ ((p:ℤ) - ratExp2 q) := by
          rw [← zpow_add₀ (by norm_num : (2:ℚ) ≠ 0)]
          congr 1
          ring
      _ ≤ q * 2 ^ ((p:ℤ) - ratExp2 q) :=
          mul_le_mul_of_nonneg_right hlo (two_zpow_pos _).le
  have h2 : ((2:ℤ)) ^ p ≤ rnearest (q * 2 ^ ((p:ℤ) - ratExp2 q)) := by
    refine intCast_le_rnearest ?_
    calc (((2:ℤ) ^ p : ℤ) : ℚ) = (2:ℚ) ^ (p:ℤ) := by push_cast; rw [zpow_natCast]
      _ ≤ q * 2 ^ ((p:ℤ) - ratExp2 q) := hz
  calc (2:ℚ) ^ ratExp2 q = 2 ^ (p:ℤ) * 2 ^ (ratExp2 q - (p:ℤ)) := by
        rw [← zpow_add₀ (by norm_num : (2:ℚ) ≠ 0)]
        congr 1
        ring
    _ ≤ ((rnearest (q * 2 ^ ((p:ℤ) - ratExp2 q)) : ℤ) : ℚ) * 2 ^ (ratExp2 q - (p:ℤ)) := by
        refine mul_le_mul_of_nonneg_right ?_ (two_zpow_pos _).le
        calc (2:ℚ) ^ (p:ℤ) = (((2:ℤ) ^ p : ℤ) : ℚ) := by push_cast; rw [zpow_natCast]
          _ ≤ _ := by exact_mod_cast h2

/-- Rounding does not exceed the power of two above the binary exponent. -/
theorem roundFP_le_zpow (p : ℕ) {q : ℚ} (hq : (2:ℚ) ^ (-80 : ℤ) ≤ q) :
    roundFP p q ≤ (2:ℚ) ^ (ratExp2 q + 1) := by
  have hq0 : 0 < q := lt_of_lt_of_le (two_zpow_pos _) hq
  obtain ⟨_, hhi⟩ := ratExp2_spec hq
  rw [roundFP_pos_eq p hq0]
  have hz : q * 2 ^ ((p:ℤ) - ratExp2 q) ≤ ((2:ℚ)) ^ ((p:ℤ) + 1) := by
    calc q * 2 ^ ((p:ℤ) - ratExp2 q)
        ≤ 2 ^ (ratExp2 q + 1) * 2 ^ ((p:ℤ) - ratExp2 q) :=
          mul_le_mul_of_nonneg_right hhi.le (two_zpow_pos _).le
      _ = ((2:ℚ)) ^ ((p:ℤ) + 1) := by
          rw [← zpow_add₀ (by norm_num : (2:ℚ) ≠ 0)]
          congr 1
          ring
  have hcast : (((2:ℤ) ^ (p+1) : ℤ) : ℚ) = (2:ℚ) ^ ((p:ℤ) + 1) := by
    push_cast
    rw [← zpow_natCast (2:ℚ) (p+1), Nat.cast_add, Nat.cast_one]
  have h2 : rnearest (q * 2 ^ ((p:ℤ) - ratExp2 q)) ≤ ((2:ℤ)) ^ (p + 1) := by
    refine rnearest_le_intCast ?_
    calc q * 2 ^ ((p:ℤ) - ratExp2 q) ≤ ((2:ℚ)) ^ ((p:ℤ) + 1) := hz
      _ = (((2:ℤ) ^ (p+1) : ℤ) : ℚ) := hcast.symm
  calc ((rnearest (q * 2 ^ ((p:ℤ) - ratExp2 q)) : ℤ) : ℚ) * 2 ^ (ratExp2 q - (p:ℤ))
      ≤ (((2:ℤ) ^ (p+1) : ℤ) : ℚ) * 2 ^ (ratExp2 q - (p:ℤ)) := by
        refine mul_le_mul_of_nonneg_right ?_ (two_zpow_pos _).le
        exact_mod_cast h2
    _ = (2:ℚ) ^ (ratExp2 q + 1) := by
        rw [hcast, ← zpow_add₀ (by norm_num : (2:ℚ) ≠ 0)]
        congr 1
        ring

/-- Rounding is monotone on arguments at least 2 ^ (-80). -/
theorem roundFP_mono (p : ℕ) {x y : ℚ} (hx : (2:ℚ) ^ (-80 : ℤ) ≤ x) (hxy : x ≤ y) :
    roundFP p x ≤ roundFP p y := by
  have hy : (2:ℚ) ^ (-80 : ℤ) ≤ y := le_trans hx hxy
  have hx0 : 0 < x := lt_of_lt_of_le (two_zpow_pos _) hx
  obtain ⟨hx1, hx2⟩ := ratExp2_spec hx
  obtain ⟨hy1, hy2⟩ := ratExp2_spec hy
  have he : ratExp2 x ≤ ratExp2 y := by
    by_contra hc
    push_neg at hc
    have h3 : (2:ℚ) ^ (ratExp2 y + 1) ≤ 2 ^ ratExp2 x := two_zpow_le (by omega)
    linarith
  rcases lt_or_eq_of_le he with hlt | heq
  · calc roundFP p x ≤ 2 ^ (ratExp2 x + 1) := roundFP_le_zpow p hx
      _ ≤ 2 ^ ratExp2 y := two_zpow_le (by omega)
      _ ≤ roundFP p y := zpow_le_roundFP p hy
  · have hy0 : 0 < y := lt_of_lt_of_le hx0 hxy
    rw [roundFP_pos_eq p hx0, roundFP_pos_eq p hy0, ← heq]
    have hmz : x * 2 ^ ((p:ℤ) - ratExp2 x) ≤ y * 2 ^ ((p:ℤ) - ratExp2 x) :=
      mul_le_mul_of_nonneg_right hxy (two_zpow_pos _).le
    refine mul_le_mul_of_nonneg_right ?_ (two_zpow_pos _).le
    exact_mod_cast rnearest_mono hmz

/-- One is a 24-bit float value: rounding fixes it. -/
theorem roundF32_one : roundFP 23 (1:ℚ) = 1 := by decide!

/-- One hundred is a 24-bit float value: rounding fixes it. -/
theorem roundF32_hundred : roundFP 23 (100:ℚ) = 100 := by decide!

/-- 2 ^ 64 is a 24-bit float value: rounding fixes it. -/
theorem roundF32_two64 : roundFP 23 ((2:ℚ) ^ (64:ℕ)) = 2 ^ (64:ℕ) := by decide!

/-- The model cutoff is below one. -/
theorem low_le_one : (2:ℚ) ^ (-80 : ℤ) ≤ 1 := by
  have h := two_zpow_le (by norm_num : (-80:ℤ) ≤ 0)
  simpa using h

/-- The model cutoff is below every positive natural number. -/
theorem low_le_natCast {n : ℕ} (h : 1 ≤ n) : (2:ℚ) ^ (-80 : ℤ) ≤ (n:ℚ) :=
  le_trans low_le_one (by exact_mod_cast h)

/-- C5: for u64 values used and total with total nonzero and used <= total,
the memory percentage (used as f32 / total as f32) * 100.0, computed in
32-bit float arithmetic, is a finite value in the closed interval
[0, 100]. -/
theorem ram_percentage_bounds (used total : ℕ) (h1 : used ≤ total) (h2 : 0 < total)
    (h3 : total < 2 ^ 64) :
    ∃ q : ℚ, ram_percentage used total = F32.num q ∧ 0 ≤ q ∧ q ≤ 100 := by
  have htq : (1:ℚ) ≤ (total:ℚ) := by exact_mod_cast h2
  have hlowt : (2:ℚ) ^ (-80 : ℤ) ≤ (total:ℚ) := low_le_natCast h2
  have hft1 : (1:ℚ) ≤ roundF32 (total:ℚ) := by
    calc (1:ℚ) = roundFP 23 1 := roundF32_one.symm
      _ ≤ roundFP 23 (total:ℚ) := roundFP_mono 23 low_le_one htq
  have hft0 : roundF32 (total:ℚ) ≠ 0 := (lt_of_lt_of_le zero_lt_one hft1).ne'
  have hft64 : roundF32 (total:ℚ) ≤ 2 ^ (64:ℕ) := by
    have hcast : ((total:ℚ)) ≤ 2 ^ (64:ℕ) := by
      calc ((total:ℚ)) ≤ ((2 ^ 64 : ℕ) : ℚ) := by exact_mod_cast h3.le
        _ = 2 ^ (64:ℕ) := by push_cast; ring
    calc roundFP 23 (total:ℚ) ≤ roundFP 23 ((2:ℚ) ^ (64:ℕ)) := roundFP_mono 23 hlowt hcast
      _ = 2 ^ (64:ℕ) := roundF32_two64
  by_cases hu : used = 0
  · subst hu
    refine ⟨0, ?_, le_refl 0, by norm_num⟩
    rw [ram_percentage, u64ToF32, u64ToF32]
    simp only [Nat.cast_zero, roundFP_zero]
    simp [F32.div, F32.mul, hft0, qdiv_eq, roundFP_zero]
  · have hu1 : 1 ≤ used := Nat.one_le_iff_ne_zero.mpr hu
    have hlowu : (2:ℚ) ^ (-80 : ℤ) ≤ (used:ℚ) := low_le_natCast hu1
    have hfa1 : (1:ℚ) ≤ roundF32 (used:ℚ) := by
      calc (1:ℚ) = roundFP 23 1 := roundF32_one.symm
        _ ≤ roundFP 23 (used:ℚ) := roundFP_mono 23 low_le_one (by exact_mod_cast hu1)
    have hfafb : roundF32 (used:ℚ) ≤ roundF32 (total:ℚ) :=
      roundFP_mono 23 hlowu (by exact_mod_cast h1)
    have hft0q : (0:ℚ) < roundF32 (total:ℚ) := lt_of_lt_of_le zero_lt_one hft1
    have hr1 : roundF32 (used:ℚ) / roundF32 (total:ℚ) ≤ 1 :=
      (div_le_one hft0q).mpr hfafb
    have hrlow : (2:ℚ) ^ (-80 : ℤ) ≤ roundF32 (used:ℚ) / roundF32 (total:ℚ) := by
      have h5 : (1:ℚ) / 2 ^ (64:ℕ) ≤ roundF32 (used:ℚ) / roundF32 (total:ℚ) :=
        div_le_div₀ (by linarith) hfa1 hft0q hft64
      have h6 : (2:ℚ) ^ (-80 : ℤ) ≤ 1 / 2 ^ (64:ℕ) := by
        rw [one_div, ← zpow_natCast (2:ℚ) 64, ← zpow_neg]
        exact two_zpow_le (by norm_num)
      linarith
    have hd1 : roundF32 (roundF32 (used:ℚ) / roundF32 (total:ℚ)) ≤ 1 := by
      calc roundFP 23 (roundF32 (used:ℚ) / roundF32 (total:ℚ)) ≤ roundFP 23 1 :=
            roundFP_mono 23 hrlow hr1
        _ = 1 := roundF32_one
    have hdlow : (2:ℚ) ^ (-80 : ℤ) ≤ roundF32 (roundF32 (used:ℚ) / roundF32 (total:ℚ)) := by
      calc (2:ℚ) ^ (-80 : ℤ) ≤ 2 ^ ratExp2 (roundF32 (used:ℚ) / roundF32 (total:ℚ)) :=
            two_zpow_le (ratExp2_ge hrlow)
        _ ≤ roundFP 23 (roundF32 (used:ℚ) / roundF32 (total:ℚ)) := zpow_le_roundFP 23 hrlow
    have hlow0 : (0:ℚ) < (2:ℚ) ^ (-80 : ℤ) := two_zpow_pos _
    have hy100 : roundF32 (roundF32 (used:ℚ) / roundF32 (total:ℚ)) * 100 ≤ 100 := by nlinarith
    have hylow : (2:ℚ) ^ (-80 : ℤ) ≤ roundF32 (roundF32 (used:ℚ) / roundF32 (total:ℚ)) * 100 := by
      nlinarith
    have hp100 : roundF32 (roundF32 (roundF32 (used:ℚ) / roundF32 (total:ℚ)) * 100) ≤ 100 := by
      calc roundFP 23 (roundF32 (roundF32 (used:ℚ) / roundF32 (total:ℚ)) * 100) ≤ roundFP 23 100 :=
            roundFP_mono 23 hylow hy100
        _ = 100 := roundF32_hundred
    have hp0 : 0 ≤ roundF32 (roundF32 (roundF32 (used:ℚ) / roundF32 (total:ℚ)) * 100) :=
      roundFP_nonneg 23 (by nlinarith)
    refine ⟨roundF32 (roundF32 (roundF32 (used:ℚ) / roundF32 (total:ℚ)) * 100), ?_, hp0, hp100⟩
    rw [ram_percentage, u64ToF32, u64ToF32]
    simp only [F32.div, F32.mul, if_neg hft0, qdiv_eq]

/-- Witness for ram_percentage_bounds at used = 1, total = 2. -/
theorem ram_percentage_bounds_w :
    (1 ≤ 2 ∧ 0 < 2 ∧ 2 < 2 ^ 64) ∧
      ∃ q : ℚ, ram_percentage 1 2 = F32.num q ∧ 0 ≤ q ∧ q ≤ 100 :=
  ⟨by norm_num, ram_percentage_bounds 1 2 (by norm_num) (by norm_num) (by norm_num)⟩

/-- The two-digit pad really is two characters long below one hundred. -/
theorem pad2_length : ∀ k, k < 100 → (pad2 k).length = 2 := by decide!

/-- The source's match cascade implements the spec's largest-unit choice:
format_bytes agrees with specFormatBytes on every input. -/
theorem format_bytes_refines (b : ℕ) : format_bytes b = specFormatBytes b := by
  rw [format_bytes, specFormatBytes, specUnits]
  by_cases h4 : TB ≤ b
  · rw [List.find?_cons_of_pos _ (by simpa using h4), if_pos h4]
    simp [String.append_assoc]
  · rw [List.find?_cons_of_neg _ (by simpa using h4), if_neg h4]
    by_cases h3 : GB ≤ b
    · rw [List.find?_cons_of_pos _ (by simpa using h3), if_pos h3]
      simp [String.append_assoc]
    · rw [List.find?_cons_of_neg _ (by simpa using h3), if_neg h3]
      by_cases h2 : MB ≤ b
      · rw [List.find?_cons_of_pos _ (by simpa using h2), if_pos h2]
        simp [String.append_assoc]
      · rw [List.find?_cons_of_neg _ (by simpa using h2), if_neg h2]
        by_cases h1 : KB ≤ b
        · rw [List.find?_cons_of_pos _ (by simpa using h1), if_pos h1]
          simp [String.append_assoc]
        · rw [List.find?_cons_of_neg _ (by simpa using h1), if_neg h1]
          rfl

/-- C1: format_bytes selects the largest unit among B, KB, MB, GB, TB whose
1024-based threshold the input meets (equality with the spec-side
formulation specFormatBytes), renders inputs below 1024 as a plain integer
byte count, and matches the spec's concrete examples, including the
at-threshold cases picking the larger unit. -/
theorem format_bytes_spec :
    (∀ b, format_bytes b = specFormatBytes b) ∧
      format_bytes 0 = "0 B" ∧
      format_bytes 1023 = "1023 B" ∧
      format_bytes 1024 = "1.00 KB" ∧
      format_bytes 1536 = "1.50 KB" ∧
      format_bytes (1024 * 1024) = "1.00 MB" ∧
      format_bytes (1024 * 1024 * 1024 * 1024) = "1.00 TB" :=
  ⟨format_bytes_refines, by decide!, by decide!, by decide!, by decide!, by decide!, by decide!⟩

/-- C4: format_percentage renders the finite f32 value with exactly two
decimal digits followed directly by a percent sign (no space), and matches
the spec's concrete examples; 33.333 denotes the f32 literal, the value
nearest to 33333/1000. -/
theorem format_percentage_spec :
    (∀ q : ℚ, ∃ (sgn : String) (n : ℕ), (sgn = "" ∨ sgn = "-") ∧
        format_percentage (F32.num q) =
          sgn ++ (toString (n / 100) ++ "." ++ pad2 (n % 100)) ++ "%" ∧
        (pad2 (n % 100)).length = 2) ∧
      format_percentage (F32.num 0) = "0.00%" ∧
      format_percentage (F32.num (roundF32 (33333 / 1000))) = "33.33%" ∧
      format_percentage (F32.num 100) = "100.00%" := by
  refine ⟨?_, by decide!, by decide!, by decide!⟩
  intro q
  refine ⟨(if q < 0 then "-" else ""), (rnearest (|q| * 100)).toNat, ?_, rfl, ?_⟩
  · split_ifs <;> simp
  · exact pad2_length _ (Nat.mod_lt _ (by norm_num))

/-- The wrapping fold computes the plain sum when it fits in u64. -/
theorem u64sum_aux (xs : List ℕ) : ∀ a, a + xs.sum < 2 ^ 64 →
    xs.foldl (fun acc x => (acc + x) % 2 ^ 64) a = a + xs.sum := by
  induction xs with
  | nil => intro a h; simp
  | cons x xs ih =>
    intro a h
    simp only [List.foldl_cons, List.sum_cons] at h ⊢
    rw [Nat.mod_eq_of_lt (by omega), ih (a + x) (by omega)]
    omega

/-- The u64 iterator sum equals the mathematical sum when it fits. -/
theorem u64sum_eq_sum {xs : List ℕ} (h : xs.sum < 2 ^ 64) : u64sum xs = xs.sum := by
  rw [u64sum, u64sum_aux xs 0 (by omega)]
  omega

/-- Wrapping u64 subtraction is plain subtraction when no underflow occurs. -/
theorem wrapSub_eq {a b : ℕ} (hba : b ≤ a) (ha : a < 2 ^ 64) : wrapSub a b = a - b := by
  rw [wrapSub]
  omega

/-- C10: the storage used count is the u64 subtraction of the summed
available space from the summed total space; when the available sum is at
most the total sum this subtraction does not underflow, the debug-profile
overflow check would not trip, and the handler returns normally with the
exact difference. -/
theorem storage_sub_no_underflow (locks : LockEnv) (env : SysEnv)
    (hs : locks.sysPoisoned = false) (hd : locks.disksPoisoned = false)
    (ht : (env.disks.map Disk.total_space).sum < 2 ^ 64)
    (ha : (env.disks.map Disk.available_space).sum < 2 ^ 64)
    (hle : (env.disks.map Disk.available_space).sum ≤ (env.disks.map Disk.total_space).sum) :
    subUnderflows (u64sum (env.disks.map Disk.total_space))
        (u64sum (env.disks.map Disk.available_space)) = false ∧
      ∃ stats, get_server_stats locks env = Except.ok stats ∧
        stats.storage.used =
          format_bytes ((env.disks.map Disk.total_space).sum -
            (env.disks.map Disk.available_space).sum) := by
  constructor
  · rw [subUnderflows, u64sum_eq_sum ht, u64sum_eq_sum ha]
    exact decide_eq_false (by omega)
  · obtain ⟨stats, hstats, hused⟩ :
        ∃ stats, get_server_stats locks env = Except.ok stats ∧
          stats.storage.used = format_bytes (wrapSub
            (u64sum (env.disks.map Disk.total_space))
            (u64sum (env.disks.map Disk.available_space))) := by
      rw [get_server_stats]
      simp [hs, hd]
    refine ⟨stats, hstats, ?_⟩
    rw [hused, u64sum_eq_sum ht, u64sum_eq_sum ha, wrapSub_eq hle ht]

/-- Witness for storage_sub_no_underflow on the sample environment. -/
theorem storage_sub_no_underflow_w :
    subUnderflows (u64sum (envSample.disks.map Disk.total_space))
        (u64sum (envSample.disks.map Disk.available_space)) = false ∧
      ∃ stats, get_server_stats ⟨false, false⟩ envSample = Except.ok stats ∧
        stats.storage.used =
          format_bytes ((envSample.disks.map Disk.total_space).sum -
            (envSample.disks.map Disk.available_space).sum) :=
  storage_sub_no_underflow ⟨false, false⟩ envSample rfl rfl (by norm_num [envSample])
    (by norm_num [envSample]) (by norm_num [envSample])

/-- C2: with both locks healthy, the route always produces a 200 response
whose JSON body is an object with exactly the keys cpu_usage, ram and
storage, where ram and storage are objects with exactly the keys used,
total and percentage, and every leaf value is a string. -/
theorem stats_route_shape (locks : LockEnv) (env : SysEnv)
    (hs : locks.sysPoisoned = false) (hd : locks.disksPoisoned = false) :
    ∃ c u1 t1 p1 u2 t2 p2 : String,
      route_stats locks env = some (200, Json.obj
        [("cpu_usage", Json.str c),
         ("ram", Json.obj [("used", Json.str u1), ("total", Json.str t1),
            ("percentage", Json.str p1)]),
         ("storage", Json.obj [("used", Json.str u2), ("total", Json.str t2),
            ("percentage", Json.str p2)])]) := by
  obtain ⟨stats, hstats⟩ : ∃ stats, get_server_stats locks env = Except.ok stats := by
    rw [get_server_stats]
    simp [hs, hd]
  refine ⟨stats.cpu_usage, stats.ram.used, stats.ram.total, stats.ram.percentage,
    stats.storage.used, stats.storage.total, stats.storage.percentage, ?_⟩
  rw [route_stats, hstats]
  rfl

/-- Witness for stats_route_shape on the sample environment. -/
theorem stats_route_shape_w :
    ∃ c u1 t1 p1 u2 t2 p2 : String,
      route_stats ⟨false, false⟩ envSample = some (200, Json.obj
        [("cpu_usage", Json.str c),
         ("ram", Json.obj [("used", Json.str u1), ("total", Json.str t1),
            ("percentage", Json.str p1)]),
         ("storage", Json.obj [("used", Json.str u2), ("total", Json.str t2),
            ("percentage", Json.str p2)])]) :=
  stats_route_shape ⟨false, false⟩ envSample rfl rfl

/-- C3: the handler sums total_space and available_space over all disks,
reports used disk bytes as total minus available, and computes the disk
percentage by the f32 formula 100 - (available / total) * 100 applied to
those sums. -/
theorem disk_sampling_spec (locks : LockEnv) (env : SysEnv)
    (hs : locks.sysPoisoned = false) (hd : locks.disksPoisoned = false)
    (ht : (env.disks.map Disk.total_space).sum < 2 ^ 64)
    (ha : (env.disks.map Disk.available_space).sum < 2 ^ 64)
    (hle : (env.disks.map Disk.available_space).sum ≤ (env.disks.map Disk.total_space).sum) :
    ∃ stats, get_server_stats locks env = Except.ok stats ∧
      stats.storage.total = format_bytes ((env.disks.map Disk.total_space).sum) ∧
      stats.storage.used = format_bytes ((env.disks.map Disk.total_space).sum -
        (env.disks.map Disk.available_space).sum) ∧
      stats.storage.percentage = format_percentage (disk_used_percentage
        ((env.disks.map Disk.available_space).sum)
        ((env.disks.map Disk.total_space).sum)) := by
  obtain ⟨stats, hstats, hu, ht2, hp⟩ :
      ∃ stats, get_server_stats locks env = Except.ok stats ∧
        stats.storage.used = format_bytes (wrapSub
          (u64sum (env.disks.map Disk.total_space))
          (u64sum (env.disks.map Disk.available_space))) ∧
        stats.storage.total = format_bytes (u64sum (env.disks.map Disk.total_space)) ∧
        stats.storage.percentage = format_percentage (disk_used_percentage
          (u64sum (env.disks.map Disk.available_space))
          (u64sum (env.disks.map Disk.total_space))) := by
    rw [get_server_stats]
    simp [hs, hd]
  refine ⟨stats, hstats, ?_, ?_, ?_⟩
  · rw [ht2, u64sum_eq_sum ht]
  · rw [hu, u64sum_eq_sum ht, u64sum_eq_sum ha, wrapSub_eq hle ht]
  · rw [hp, u64sum_eq_sum ht, u64sum_eq_sum ha]

/-- Witness for disk_sampling_spec on the sample environment. -/
theorem disk_sampling_spec_w :
    ∃ stats, get_server_stats ⟨false, false⟩ envSample = Except.ok stats ∧
      stats.storage.total = format_bytes ((envSample.disks.map Disk.total_space).sum) ∧
      stats.storage.used = format_bytes ((envSample.disks.map Disk.total_space).sum -
        (envSample.disks.map Disk.available_space).sum) ∧
      stats.storage.percentage = format_percentage (disk_used_percentage
        ((envSample.disks.map Disk.available_space).sum)
        ((envSample.disks.map Disk.total_space).sum)) :=
  disk_sampling_spec ⟨false, false⟩ envSample rfl rfl (by norm_num [envSample])
    (by norm_num [envSample]) (by norm_num [envSample])

/-- C6: whenever total memory reads zero (and hence used memory is zero
under the sampler invariant), the memory percentage is the f32 NaN via
0/0, and independently, whenever the disk set is empty so the summed
total disk space is zero, the disk percentage is NaN; in each case no
runtime fault occurs (the handler still returns ok) and the NaN is
propagated unguarded into the formatted percentage string.  The two
disjuncts of the claim are covered separately: each holds with no
assumption on the other sampler's reading. -/
theorem zero_total_nan (locks : LockEnv) (env : SysEnv)
    (hs : locks.sysPoisoned = false) (hd : locks.disksPoisoned = false) :
    (env.total_memory = 0 → env.used_memory ≤ env.total_memory →
      ∃ stats, get_server_stats locks env = Except.ok stats ∧
        stats.ram.percentage = "NaN%") ∧
    (env.disks = [] →
      ∃ stats, get_server_stats locks env = Except.ok stats ∧
        stats.storage.percentage = "NaN%") := by
  obtain ⟨stats, hstats, hr, hp⟩ :
      ∃ stats, get_server_stats locks env = Except.ok stats ∧
        stats.ram.percentage =
          format_percentage (ram_percentage env.used_memory env.total_memory) ∧
        stats.storage.percentage = format_percentage (disk_used_percentage
          (u64sum (env.disks.map Disk.available_space))
          (u64sum (env.disks.map Disk.total_space))) := by
    rw [get_server_stats]
    simp [hs, hd]
  constructor
  · intro hm hum
    have hu0 : env.used_memory = 0 := by omega
    refine ⟨stats, hstats, ?_⟩
    rw [hr, hu0, hm]
    decide!
  · intro hdisks
    refine ⟨stats, hstats, ?_⟩
    rw [hp, hdisks]
    decide!

/-- Witness for zero_total_nan, exercising each disjunct on an input
where the other disjunct's condition fails: zero total memory with a
mounted disk, and an empty disk set with nonzero memory. -/
theorem zero_total_nan_w :
    (∃ stats, get_server_stats ⟨false, false⟩
        { cpu_usage := F32.num 0, total_memory := 0, used_memory := 0,
          disks := [{ total_space := 1000000, available_space := 400000 }] } =
          Except.ok stats ∧ stats.ram.percentage = "NaN%") ∧
    (∃ stats, get_server_stats ⟨false, false⟩
        { cpu_usage := F32.num 0, total_memory := 4096, used_memory := 1024,
          disks := [] } = Except.ok stats ∧ stats.storage.percentage = "NaN%") :=
  ⟨(zero_total_nan ⟨false, false⟩
      { cpu_usage := F32.num 0, total_memory := 0, used_memory := 0,
        disks := [{ total_space := 1000000, available_space := 400000 }] }
      rfl rfl).1 rfl (le_refl _),
   (zero_total_nan ⟨false, false⟩
      { cpu_usage := F32.num 0, total_memory := 4096, used_memory := 1024,
        disks := [] } rfl rfl).2 rfl⟩

/-- C7 counterexample: with the SYSTEM lock poisoned, the handler panics
on unwrap and the route produces no response at all, in particular no
500-class response. -/
theorem route_stats_no_500_on_poison :
    ¬ ∃ status body, route_stats ⟨true, false⟩ envEmpty = some (status, body) ∧
        500 ≤ status ∧ status ≤ 599 := by
  rintro ⟨s, b, hsb, _, _⟩
  have hnone : route_stats ⟨true, false⟩ envEmpty = none := rfl
  rw [hnone] at hsb
  exact Option.noConfusion hsb

/-- C7 as amended: if either sampler lock is poisoned, the handler's
unwrap panics (modelled as the error outcome), so that request is aborted
without any response; no 500 response is generated by this program. -/
theorem poisoned_lock_panics (locks : LockEnv) (env : SysEnv)
    (h : locks.sysPoisoned = true ∨ locks.disksPoisoned = true) :
    get_server_stats locks env = Except.error Panic.lockPoisoned ∧
      route_stats locks env = none := by
  have herr : get_server_stats locks env = Except.error Panic.lockPoisoned := by
    rcases h with h | h
    · rw [get_server_stats, h]
      simp
    · cases hsys : locks.sysPoisoned with
      | true =>
        rw [get_server_stats, hsys]
        simp
      | false =>
        rw [get_server_stats, hsys, h]
        simp
  refine ⟨herr, ?_⟩
  rw [route_stats, herr]

/-- Witness for poisoned_lock_panics with a poisoned SYSTEM lock. -/
theorem poisoned_lock_panics_w :
    get_server_stats ⟨true, false⟩ envEmpty = Except.error Panic.lockPoisoned ∧
      route_stats ⟨true, false⟩ envEmpty = none :=
  poisoned_lock_panics ⟨true, false⟩ envEmpty (Or.inl rfl)

/-- C8 counterexample: the handler does hold one lock while acquiring the
other; at the event acquiring the DISKS lock, the SYSTEM lock is held. -/
theorem no_nested_locks_false : ¬ noLockHeldWhileAcquiring handlerLockTrace := by
  intro h
  have h1 := h 1 (by decide) LockId.disks LockId.system rfl (by decide)
  exact absurd h1 (by decide)

/-- C8 as amended: the handler acquires the DISKS lock while the SYSTEM
lock is still held (the SYSTEM guard lives to the end of the function),
so the two critical sections nest rather than being independent; both
locks are released by the end of the handler, in LIFO order. -/
theorem handler_lock_nesting :
    handlerLockTrace[1]? = some (LockEvent.acquire LockId.disks) ∧
      heldAfter (handlerLockTrace.take 1) LockId.system = true ∧
      heldAfter handlerLockTrace LockId.system = false ∧
      heldAfter handlerLockTrace LockId.disks = false := by decide

/-- C9: main constructs the loopback address 127.0.0.1 at fixed port
2989, prints exactly one human-readable line announcing that address
before the single bind-and-serve step, binds no other address, and on a
bind or serve error prints the error to stderr as the final effect and
exits (the trace ends); there is no retry and no fallback port. -/
theorem main_startup_spec :
    main_addr = { ip := [127, 0, 0, 1], port := 2989 } ∧
      (∀ r, (mainEffects r).head? =
        some (Effect.println ("Listening on " ++ sockAddrStr main_addr))) ∧
      (∀ r, (mainEffects r)[1]? = some (Effect.bindServe main_addr)) ∧
      (∀ r, ((mainEffects r).filter fun ev =>
          match ev with | Effect.println _ => true | _ => false).length = 1) ∧
      (∀ r, ((mainEffects r).filter fun ev =>
          match ev with | Effect.bindServe _ => true | _ => false).length = 1) ∧
      (∀ r a, Effect.bindServe a ∈ mainEffects r → a = main_addr) ∧
      (∀ e, (mainEffects (some e)).getLast? =
        some (Effect.eprintln ("Server error: " ++ e))) := by
  refine ⟨rfl, ?_, ?_, ?_, ?_, ?_, ?_⟩
  · intro r
    cases r <;> rfl
  · intro r
    cases r <;> rfl
  · intro r
    cases r <;> rfl
  · intro r
    cases r <;> rfl
  · intro r a h
    cases r <;> simp [mainEffects] at h <;> simp [h]
  · intro e
    rfl
